import Mathlib

/-!
Shallow embedding of `nextbg.py`: a JSON-backed index of image paths with a
current offset, and the state-transition operations on it (`Config.load`,
`Config.save`, `Config.get_image`, `Config.set_image`, `Config.next_offset`,
`Config.prev_offset`, `Config.random_offset`, `Config.pop_offset`,
`Config.set_index`, `Config.update_index`), together with theorems settling
the spec claims about them.

Modelling conventions:
* Python `int` becomes `Int`; list indices keep Python semantics
  (`pyListPop`, `pyListInsert` reproduce `list.pop` / `list.insert` index
  clamping and negative-index handling).
* Python exceptions become `Except Err`; each distinct raise site gets its
  own `Err` constructor (`CommandError("No index found...")` is
  `Err.emptyIndex`, `CommandError("Refusing to delete the last item...")` is
  `Err.lastItem`, the two `set_image` validation errors are
  `Err.pathNotExist` / `Err.pathNotFile`, a `list.pop` out-of-range
  `IndexError` is `Err.indexError`, and a `json.JSONDecodeError` / `KeyError`
  escaping `Config.load` is `Err.configError`).
* The persisted file is modelled explicitly: a `State` is the in-memory
  `Config` plus the on-disk contents (`none` = no file, `DiskFile.invalid` =
  present but not valid JSON, `DiskFile.json` = a JSON object whose four
  fields are each present or missing).  `Config.save` copies the in-memory
  fields to disk, exactly as `json.dump` of the four-field dict does.
* The filesystem consulted by `set_image` (`Path.exists` / `Path.is_file`)
  is an oracle `String → PathStat`; `random.randint(0, len-1)` is an oracle
  argument `r : Int`.  `str(Path(x))` is taken as the identity on the path
  strings involved.  Printing is ignored, but `pop_offset` evaluates
  `get_image` inside its print, and that call's clamp is kept.
-/

namespace Nextbg

/-- Error taxonomy: one constructor per distinct raise site in the source. -/
inductive Err where
  | emptyIndex
  | lastItem
  | pathNotExist
  | pathNotFile
  | indexError
  | configError
deriving Repr, DecidableEq

/-- What `Path(p).exists()` / `Path(p).is_file()` report for a path:
`missing` = does not exist, `file` = exists and is a regular file,
`other` = exists but is not a regular file. -/
inductive PathStat where
  | missing
  | file
  | other
deriving Repr, DecidableEq

/-- The four persisted fields of the `Config` dataclass. -/
structure Config where
  index : List String
  offset : Int
  bg_set_command : List String
  image_file_patterns : List String
deriving Repr, DecidableEq

/-- The dataclass defaults of `Config` (fresh in-memory state before `load`). -/
def defaultConfig : Config :=
  { index := []
    offset := 0
    bg_set_command := ["feh", "--bg-fill", "<image>"]
    image_file_patterns := ["*.png", "*.jpg"] }

/-- Contents of the config file when it exists: either not valid JSON, or a
JSON object in which each of the four expected fields is present or absent. -/
inductive DiskFile where
  | invalid : DiskFile
  | json (index : Option (List String)) (offset : Option Int)
      (bg_set_command : Option (List String))
      (image_file_patterns : Option (List String)) : DiskFile
deriving Repr, DecidableEq

/-- Full program state: the in-memory `Config` plus the on-disk file
(`none` = no file at the config path). -/
structure State where
  mem : Config
  disk : Option DiskFile
deriving Repr, DecidableEq

/-- The JSON document `Config.save` writes for an in-memory config. -/
def toDisk (c : Config) : DiskFile :=
  .json (some c.index) (some c.offset) (some c.bg_set_command)
    (some c.image_file_patterns)

/-- `Config.save`: dump the four fields to the config file. -/
def save (s : State) : State :=
  { mem := s.mem, disk := some (toDisk s.mem) }

/-- `Config.load`: missing file ⇒ save defaults (i.e. the current in-memory
fields) and return; invalid JSON ⇒ `json.load` raises; present JSON ⇒ read
the four fields, a missing field raising `KeyError`.  Both escaping
exceptions are modelled as `Err.configError`. -/
def load (s : State) : Except Err State :=
  match s.disk with
  | none => .ok (save s)
  | some .invalid => .error .configError
  | some (.json idx off bg pats) =>
    match idx, bg, pats, off with
    | some i, some b, some p, some o =>
        .ok { mem := { index := i, offset := o, bg_set_command := b,
                       image_file_patterns := p },
              disk := s.disk }
    | _, _, _, _ => .error .configError

/-- The `dedup` generator: yield each value not seen before, tracking the
seen set (membership in the accumulator list models the Python `set`). -/
def dedupAux (seen : List String) : List String → List String
  | [] => []
  | v :: rest =>
    if v ∈ seen then dedupAux seen rest else v :: dedupAux (v :: seen) rest

/-- `dedup(values)`: stable first-occurrence deduplication. -/
def dedup (values : List String) : List String :=
  dedupAux [] values

/-- `Config._check_has_index`: raise `CommandError` when the index is empty. -/
def check_has_index (c : Config) : Except Err Unit :=
  if c.index.isEmpty then .error .emptyIndex else .ok ()

/-- `Config.get_image`: check the index is non-empty, clamp the offset to 0
when it is not in `range(0, len(index))`, and return the path at the
(clamped) offset.  No save. -/
def get_image (s : State) : Except Err (String × State) := do
  let _ ← check_has_index s.mem
  let off := if s.mem.offset < 0 ∨ (s.mem.index.length : Int) ≤ s.mem.offset
    then 0 else s.mem.offset
  let mem := { s.mem with offset := off }
  .ok (mem.index.getD off.toNat "", { s with mem := mem })

/-- `Config.next_offset`: check non-empty, increment the offset, reset to 0
when the result is not in `range(0, len(index))`, save. -/
def next_offset (s : State) : Except Err State := do
  let _ ← check_has_index s.mem
  let off := s.mem.offset + 1
  let off := if off < 0 ∨ (s.mem.index.length : Int) ≤ off then 0 else off
  .ok (save { s with mem := { s.mem with offset := off } })

/-- `Config.prev_offset`: check non-empty, decrement the offset, set to
`len(index) - 1` when the result is negative, save. -/
def prev_offset (s : State) : Except Err State := do
  let _ ← check_has_index s.mem
  let off := s.mem.offset - 1
  let off := if off < 0 then (s.mem.index.length : Int) - 1 else off
  .ok (save { s with mem := { s.mem with offset := off } })

/-- `Config.random_offset`: check non-empty, set the offset to the oracle
value `r` standing for `random.randint(0, len(index) - 1)` (the generator
guarantees `0 ≤ r ≤ len - 1`), save. -/
def random_offset (r : Int) (s : State) : Except Err State := do
  let _ ← check_has_index s.mem
  .ok (save { s with mem := { s.mem with offset := r } })

/-- Python `list.pop(i)`: a negative `i` counts from the end; an index out of
range raises `IndexError`.  Returns the popped element and the remaining
list. -/
def pyListPop (xs : List String) (i : Int) : Except Err (String × List String) :=
  let n : Int := xs.length
  let j := if i < 0 then i + n else i
  if 0 ≤ j ∧ j < n then .ok (xs.getD j.toNat "", xs.eraseIdx j.toNat)
  else .error .indexError

/-- `Config.pop_offset`: check non-empty, refuse on a 1-element index, pop
the element at the offset, decrement the offset, evaluate `get_image` (the
printed message does so, performing the clamp), save. -/
def pop_offset (s : State) : Except Err (String × State) := do
  let _ ← check_has_index s.mem
  if s.mem.index.length = 1 then
    .error .lastItem
  else do
    let popped ← pyListPop s.mem.index s.mem.offset
    let mem := { s.mem with index := popped.2, offset := s.mem.offset - 1 }
    let res ← get_image { s with mem := mem }
    .ok (res.1, save res.2)

/-- `Config.set_index`: replace the index with the deduplicated filenames,
reset the offset to 0, save.  Never raises. -/
def set_index (s : State) (filenames : List String) : State :=
  save { s with mem := { s.mem with index := dedup filenames, offset := 0 } }

/-- `Config.update_index`: dedup the new filenames, extend the index with
them, dedup the whole index, save.  Offset untouched.  Never raises. -/
def update_index (s : State) (filenames : List String) : State :=
  let fns := dedup filenames
  save { s with mem := { s.mem with index := dedup (s.mem.index ++ fns) } }

/-- Python `list.insert(i, x)`: a negative `i` counts from the end and is
clamped to 0; an `i` past the end appends. -/
def pyListInsert (xs : List String) (i : Int) (x : String) : List String :=
  let n : Int := xs.length
  let j := if i < 0 then (if i + n < 0 then 0 else i + n)
    else (if n ≤ i then n else i)
  xs.insertIdx j.toNat x

/-- `Config.set_image`: validate via the filesystem oracle (`exists` then
`is_file`); if the image is already in the index set the offset to its first
position and save; otherwise insert it right after the current offset and
run `next_offset` (which saves). -/
def set_image (fs : String → PathStat) (image : String) (s : State) :
    Except Err State :=
  if fs image = .missing then .error .pathNotExist
  else if fs image ≠ .file then .error .pathNotFile
  else if image ∈ s.mem.index then
    .ok (save { s with mem :=
      { s.mem with offset := (s.mem.index.findIdx (· == image) : Int) } })
  else
    next_offset { s with mem :=
      { s.mem with index := pyListInsert s.mem.index (s.mem.offset + 1) image } }

/-- The navigation / deletion modes dispatched by `main` (the external
background-setter invocation that several handlers chain afterwards is an
excluded collaborator and not part of the state machine). -/
inductive Mode where
  | next
  | prev
  | random
  | printCurrent
  | delete
deriving Repr, DecidableEq

/-- `main`: `Config.setup()` loads the state, then the selected mode's
handler runs.  A load failure propagates before any operation runs. -/
def runMode (m : Mode) (r : Int) (s : State) : Except Err State := do
  let s1 ← load s
  match m with
  | .next => next_offset s1
  | .prev => prev_offset s1
  | .random => random_offset r s1
  | .printCurrent => do
      let res ← get_image s1
      .ok res.2
  | .delete => do
      let res ← pop_offset s1
      .ok res.2

/-- A fresh environment: default in-memory config, no config file on disk. -/
def freshState : State :=
  { mem := defaultConfig, disk := none }

/-- The offset-bounds invariant for a state. -/
def offsetOK (s : State) : Prop :=
  0 ≤ s.mem.offset ∧ s.mem.offset < (s.mem.index.length : Int)

/-- The invariant holds for every successful result of a fallible operation. -/
def exceptOffsetOK (e : Except Err State) : Prop :=
  ∀ s, e = .ok s → offsetOK s

/-- The invariant holds for every successful result of an operation that also
returns a path. -/
def exceptOffsetOK2 (e : Except Err (String × State)) : Prop :=
  ∀ p s, e = .ok (p, s) → offsetOK s

/-- A state with the given index and offset in memory and no file on disk. -/
def exState (idx : List String) (off : Int) : State :=
  { mem := { defaultConfig with index := idx, offset := off }, disk := none }

/-- A filesystem oracle on which every path is an existing regular file. -/
def allFiles : String → PathStat :=
  fun _ => .file

/-- Counterexample input for C1: three images, current offset 0. -/
def c1x : State :=
  exState ["/a.png", "/b.png", "/c.png"] 0

/-- Witness input for C1: the spec's own deletion scenario. -/
def c1w : State :=
  exState ["/a.png", "/b.png"] 1

/-- Counterexample input for C2: an on-disk config whose offset (10) is out
of range for its two-element index, as after an external edit. -/
def c2x : State :=
  { mem := defaultConfig,
    disk := some (.json (some ["/a.png", "/b.png"]) (some 10)
      (some ["feh", "--bg-fill", "<image>"]) (some ["*.png", "*.jpg"])) }

/-- Witness input for C2: two images, in-bounds offset 1. -/
def c2w : State :=
  exState ["/a.png", "/b.png"] 1

/-- In-memory config for the C3 counterexample: offset 5 on two images. -/
def c3mem : Config :=
  { defaultConfig with index := ["/a.png", "/b.png"], offset := 5 }

/-- Counterexample input for C3: the out-of-range offset 5 is also what the
on-disk file currently records. -/
def c3x : State :=
  { mem := c3mem, disk := some (toDisk c3mem) }

/-- Witness input for C3: out-of-range offset 7 on two images. -/
def c3w : State :=
  exState ["/a.png", "/b.png"] 7

/-- Witness input for C4: two images, offset 0. -/
def c4w : State :=
  exState ["/a.png", "/b.png"] 0

/-- Witness input for C6: empty index. -/
def c6w : State :=
  exState [] 0

/-- Witness input for C7: a single-image index. -/
def c7w : State :=
  exState ["/a.png"] 0

/-- Witness input for C8: the spec's `setExplicitImage` scenario. -/
def c8w : State :=
  exState ["/a.png", "/b.png"] 0

/-- Witness input for C9: a config file that exists but is not valid JSON. -/
def c9w : State :=
  { mem := defaultConfig, disk := some .invalid }

/-! ## Helper lemmas -/

theorem check_has_index_ok {c : Config} (h : c.index ≠ []) :
    check_has_index c = .ok () := by
  simp [check_has_index, List.isEmpty_iff, h]

theorem check_has_index_empty {c : Config} (h : c.index = []) :
    check_has_index c = .error .emptyIndex := by
  simp [check_has_index, List.isEmpty_iff, h]

theorem get_image_eq (s : State) (h : s.mem.index ≠ []) :
    get_image s = .ok
      (s.mem.index.getD
          (if s.mem.offset < 0 ∨ (s.mem.index.length : Int) ≤ s.mem.offset
            then (0 : Int) else s.mem.offset).toNat "",
        { s with mem := { s.mem with offset :=
          if s.mem.offset < 0 ∨ (s.mem.index.length : Int) ≤ s.mem.offset
            then 0 else s.mem.offset } }) := by
  unfold get_image
  rw [check_has_index_ok h]
  rfl

theorem next_offset_eq (s : State) (h : s.mem.index ≠ []) :
    next_offset s = .ok (save { s with mem := { s.mem with offset :=
      if s.mem.offset + 1 < 0 ∨ (s.mem.index.length : Int) ≤ s.mem.offset + 1
        then 0 else s.mem.offset + 1 } }) := by
  unfold next_offset
  rw [check_has_index_ok h]
  rfl

theorem prev_offset_eq (s : State) (h : s.mem.index ≠ []) :
    prev_offset s = .ok (save { s with mem := { s.mem with offset :=
      if s.mem.offset - 1 < 0 then (s.mem.index.length : Int) - 1
        else s.mem.offset - 1 } }) := by
  unfold prev_offset
  rw [check_has_index_ok h]
  rfl

theorem random_offset_eq (s : State) (r : Int) (h : s.mem.index ≠ []) :
    random_offset r s = .ok (save { s with mem := { s.mem with offset := r } }) := by
  unfold random_offset
  rw [check_has_index_ok h]
  rfl

theorem exceptOffsetOK_ok {b : State} (h : offsetOK b) :
    exceptOffsetOK (.ok b) := by
  intro s' heq
  injection heq with h'
  exact h' ▸ h

theorem exceptOffsetOK2_ok {a : String} {b : State} (h : offsetOK b) :
    exceptOffsetOK2 (.ok (a, b)) := by
  intro p s' heq
  injection heq with h'
  exact (Prod.mk.injEq _ _ _ _ ▸ h').2 ▸ h

theorem exceptOffsetOK_error {e : Err} : exceptOffsetOK (.error e) := by
  intro s' heq
  exact Except.noConfusion heq

theorem exceptOffsetOK2_error {e : Err} : exceptOffsetOK2 (.error e) := by
  intro p s' heq
  exact Except.noConfusion heq

theorem offsetOK_save {c : Config} {d : Option DiskFile}
    (h0 : 0 ≤ c.offset) (h1 : c.offset < (c.index.length : Int)) :
    offsetOK (save { mem := c, disk := d }) :=
  ⟨h0, h1⟩

theorem next_offset_bounded (s : State) (h : s.mem.index ≠ []) :
    exceptOffsetOK (next_offset s) := by
  rw [next_offset_eq s h]
  apply exceptOffsetOK_ok
  have hl : 0 < s.mem.index.length := List.length_pos.mpr h
  constructor <;> · simp only [save]; split_ifs <;> omega

theorem mem_dedupAux {x : String} :
    ∀ (seen l : List String), x ∈ dedupAux seen l ↔ x ∈ l ∧ x ∉ seen := by
  intro seen l
  induction l generalizing seen with
  | nil => simp [dedupAux]
  | cons v rest ih =>
    by_cases hv : v ∈ seen
    · rw [dedupAux, if_pos hv, ih]
      constructor
      · rintro ⟨hm, hs⟩
        exact ⟨.tail v hm, hs⟩
      · rintro ⟨hm, hs⟩
        rcases List.mem_cons.mp hm with rfl | hm
        · exact absurd hv hs
        · exact ⟨hm, hs⟩
    · rw [dedupAux, if_neg hv]
      constructor
      · intro hm
        rcases List.mem_cons.mp hm with rfl | hm
        · exact ⟨List.mem_cons_self _ _, hv⟩
        · rcases (ih (v :: seen)).mp hm with ⟨h1, h2⟩
          exact ⟨.tail v h1, fun hs => h2 (.tail v hs)⟩
      · rintro ⟨hm, hs⟩
        rcases List.mem_cons.mp hm with rfl | hm
        · exact List.mem_cons_self _ _
        · by_cases hxv : x = v
          · exact hxv ▸ List.mem_cons_self _ _
          · exact List.mem_cons.mpr (Or.inr ((ih (v :: seen)).mpr
              ⟨hm, fun hvs => by
                rcases List.mem_cons.mp hvs with h | h
                · exact hxv h
                · exact hs h⟩))

theorem nodup_dedupAux : ∀ (seen l : List String), (dedupAux seen l).Nodup := by
  intro seen l
  induction l generalizing seen with
  | nil => simp [dedupAux]
  | cons v rest ih =>
    by_cases hv : v ∈ seen
    · rw [dedupAux, if_pos hv]
      exact ih seen
    · rw [dedupAux, if_neg hv]
      refine List.nodup_cons.mpr ⟨fun hm => ?_, ih (v :: seen)⟩
      exact (mem_dedupAux _ _ |>.mp hm).2 (List.mem_cons_self _ _)

theorem sublist_dedupAux : ∀ (seen l : List String), (dedupAux seen l).Sublist l := by
  intro seen l
  induction l generalizing seen with
  | nil => simp [dedupAux]
  | cons v rest ih =>
    by_cases hv : v ∈ seen
    · rw [dedupAux, if_pos hv]
      exact (ih seen).cons v
    · rw [dedupAux, if_neg hv]
      exact (ih (v :: seen)).cons₂ v

theorem dedupAux_congr {seen seen' : List String}
    (h : ∀ x, x ∈ seen ↔ x ∈ seen') :
    ∀ l : List String, dedupAux seen l = dedupAux seen' l := by
  intro l
  induction l generalizing seen seen' with
  | nil => rfl
  | cons v rest ih =>
    by_cases hv : v ∈ seen
    · rw [dedupAux, if_pos hv, dedupAux, if_pos ((h v).mp hv), ih h]
    · rw [dedupAux, if_neg hv, dedupAux, if_neg (fun hc => hv ((h v).mpr hc))]
      have h' : ∀ x, x ∈ v :: seen ↔ x ∈ v :: seen' := by
        intro x
        simp only [List.mem_cons]
        exact or_congr Iff.rfl (h x)
      rw [ih h']

theorem dedupAux_append (seen xs ys : List String) :
    dedupAux seen (xs ++ ys) = dedupAux seen xs ++ dedupAux (xs ++ seen) ys := by
  induction xs generalizing seen with
  | nil => simp [dedupAux]
  | cons v xs ih =>
    by_cases hv : v ∈ seen
    · rw [List.cons_append, dedupAux, if_pos hv, dedupAux, if_pos hv, ih]
      rw [@dedupAux_congr (xs ++ seen) (v :: xs ++ seen)
        (fun x => by
          simp only [List.cons_append, List.mem_cons, List.mem_append]
          constructor
          · intro h
            exact Or.inr h
          · rintro (rfl | h)
            · exact Or.inr hv
            · exact h) ys]
    · rw [List.cons_append, dedupAux, if_neg hv, dedupAux, if_neg hv, ih]
      rw [List.cons_append]
      rw [@dedupAux_congr (xs ++ v :: seen) (v :: xs ++ seen)
        (fun x => by
          simp only [List.cons_append, List.mem_cons, List.mem_append]
          tauto) ys]

theorem dedupAux_dedupAux {t s : List String} (hsub : ∀ x, x ∈ t → x ∈ s) :
    ∀ ys : List String, dedupAux s (dedupAux t ys) = dedupAux s ys := by
  intro ys
  induction ys generalizing s t with
  | nil => rfl
  | cons v rest ih =>
    by_cases hvt : v ∈ t
    · rw [dedupAux, if_pos hvt, ih hsub, dedupAux, if_pos (hsub v hvt)]
    · rw [dedupAux, if_neg hvt]
      by_cases hvs : v ∈ s
      · rw [dedupAux, if_pos hvs, dedupAux, if_pos hvs]
        exact ih fun x hx => by
          rcases List.mem_cons.mp hx with rfl | hx
          · exact hvs
          · exact hsub x hx
      · rw [dedupAux, if_neg hvs, dedupAux, if_neg hvs]
        rw [ih fun x hx => by
          rcases List.mem_cons.mp hx with rfl | hx
          · exact List.mem_cons_self _ _
          · exact .tail v (hsub x hx)]

theorem dedup_append_dedup (xs ys : List String) :
    dedup (xs ++ dedup ys) = dedup (xs ++ ys) := by
  unfold dedup
  rw [dedupAux_append, dedupAux_append, List.append_nil]
  rw [dedupAux_dedupAux (t := []) (s := xs) (fun x hx => absurd hx (List.not_mem_nil x))]

theorem dedup_eq_self_of_nodup {l : List String} (h : l.Nodup) : dedup l = l := by
  suffices H : ∀ seen, (∀ x ∈ l, x ∉ seen) → dedupAux seen l = l from
    H [] (fun x _ => List.not_mem_nil x)
  induction l with
  | nil => intro seen _; rfl
  | cons v rest ih =>
    intro seen hs
    rw [dedupAux, if_neg (hs v (List.mem_cons_self _ _))]
    rw [ih (List.nodup_cons.mp h).2 (v :: seen) (fun x hx hc => by
      rcases List.mem_cons.mp hc with rfl | hc
      · exact (List.nodup_cons.mp h).1 hx
      · exact hs x (.tail v hx) hc)]

theorem length_pyListInsert (xs : List String) (i : Int) (x : String) :
    (pyListInsert xs i x).length = xs.length + 1 := by
  unfold pyListInsert
  split_ifs <;> rw [List.length_insertIdx _ _ (by omega)]

theorem pop_offset_one (s : State) (h : s.mem.index.length = 1) :
    pop_offset s = .error .lastItem := by
  have hne : s.mem.index ≠ [] := by
    intro he
    rw [he] at h
    simp at h
  unfold pop_offset
  rw [check_has_index_ok hne]
  show (if s.mem.index.length = 1 then Except.error Err.lastItem else _) = _
  rw [if_pos h]

theorem pyListPop_eq (xs : List String) (i : Int) (h0 : 0 ≤ i)
    (h1 : i < (xs.length : Int)) :
    pyListPop xs i = .ok (xs.getD i.toNat "", xs.eraseIdx i.toNat) := by
  have hni : ¬ i < 0 := by omega
  simp only [pyListPop, if_neg hni, if_pos (And.intro h0 h1)]

theorem pop_offset_eq (s : State) (h2 : 2 ≤ s.mem.index.length)
    (h0 : 0 ≤ s.mem.offset) (h1 : s.mem.offset < (s.mem.index.length : Int)) :
    pop_offset s = .ok
      ((s.mem.index.eraseIdx s.mem.offset.toNat).getD
          (if s.mem.offset = 0 then (0 : Int) else s.mem.offset - 1).toNat "",
        save { s with mem := { s.mem with
          index := s.mem.index.eraseIdx s.mem.offset.toNat,
          offset := if s.mem.offset = 0 then (0 : Int) else s.mem.offset - 1 } }) := by
  have hne : s.mem.index ≠ [] := by
    intro he
    rw [he] at h2
    simp at h2
  have htn : s.mem.offset.toNat < s.mem.index.length := by omega
  have hlen : (s.mem.index.eraseIdx s.mem.offset.toNat).length =
      s.mem.index.length - 1 := List.length_eraseIdx_of_lt htn
  have hne2 : s.mem.index.eraseIdx s.mem.offset.toNat ≠ [] := by
    apply List.ne_nil_of_length_pos
    omega
  unfold pop_offset
  rw [check_has_index_ok hne]
  show (if s.mem.index.length = 1 then Except.error Err.lastItem else _) = _
  rw [if_neg (show ¬ s.mem.index.length = 1 by omega)]
  show (pyListPop s.mem.index s.mem.offset >>= _) = _
  rw [pyListPop_eq _ _ h0 h1]
  show (get_image _ >>= _) = _
  rw [get_image_eq _ hne2]
  show Except.ok (_, save _) = _
  by_cases hz : s.mem.offset = 0
  · have hcond : s.mem.offset - 1 < 0 ∨
        ((s.mem.index.eraseIdx s.mem.offset.toNat).length : Int) ≤
          s.mem.offset - 1 := Or.inl (by omega)
    rw [if_pos hcond, if_pos hz]
  · have hcond : ¬ (s.mem.offset - 1 < 0 ∨
        ((s.mem.index.eraseIdx s.mem.offset.toNat).length : Int) ≤
          s.mem.offset - 1) := by
      rw [hlen]
      rintro (hc | hc)
      · omega
      · omega
    rw [if_neg hcond, if_neg hz]

/-! ## Claim theorems -/

/-- C4: for a non-empty index and an in-bounds offset, `next_offset` sets the
offset to `(offset + 1) mod len` and `prev_offset` to `(offset - 1) mod len`
with true (always non-negative) modulo; in particular `prev_offset` at
offset 0 yields `len - 1`. -/
theorem advance_true_modulo (s : State) (h0 : 0 ≤ s.mem.offset)
    (h1 : s.mem.offset < (s.mem.index.length : Int)) :
    next_offset s = .ok (save { s with mem := { s.mem with
        offset := (s.mem.offset + 1) % (s.mem.index.length : Int) } }) ∧
    prev_offset s = .ok (save { s with mem := { s.mem with
        offset := (s.mem.offset - 1) % (s.mem.index.length : Int) } }) ∧
    0 ≤ (s.mem.offset - 1) % (s.mem.index.length : Int) ∧
    (s.mem.offset = 0 → prev_offset s = .ok (save { s with mem := { s.mem with
        offset := (s.mem.index.length : Int) - 1 } })) := by
  have hlen : 0 < s.mem.index.length := by omega
  have hne : s.mem.index ≠ [] := List.length_pos.mp hlen
  have hprev : (s.mem.offset - 1) % (s.mem.index.length : Int) =
      if s.mem.offset - 1 < 0 then (s.mem.index.length : Int) - 1
        else s.mem.offset - 1 := by
    by_cases hz : s.mem.offset - 1 < 0
    · rw [if_pos hz]
      have h2 : s.mem.offset - 1 = -1 := by omega
      have h3 : (-1 : Int) = ((s.mem.index.length : Int) - 1) +
          (s.mem.index.length : Int) * (-1) := by ring
      rw [h2, h3, Int.add_mul_emod_self_left]
      exact Int.emod_eq_of_lt (by omega) (by omega)
    · rw [if_neg hz]
      exact Int.emod_eq_of_lt (by omega) (by omega)
  have hnext : (s.mem.offset + 1) % (s.mem.index.length : Int) =
      if s.mem.offset + 1 < 0 ∨ (s.mem.index.length : Int) ≤ s.mem.offset + 1
        then 0 else s.mem.offset + 1 := by
    by_cases hz : s.mem.offset + 1 < 0 ∨
        (s.mem.index.length : Int) ≤ s.mem.offset + 1
    · rw [if_pos hz]
      have h2 : s.mem.offset + 1 = (s.mem.index.length : Int) := by omega
      rw [h2, Int.emod_self]
    · rw [if_neg hz]
      push_neg at hz
      exact Int.emod_eq_of_lt (by omega) (by omega)
  refine ⟨?_, ?_, ?_, ?_⟩
  · rw [next_offset_eq s hne, hnext]
  · rw [prev_offset_eq s hne, hprev]
  · rw [hprev]
    split_ifs <;> omega
  · intro hz
    rw [prev_offset_eq s hne, if_pos (show s.mem.offset - 1 < 0 by omega)]

/-- C4 witness: on index `["/a.png", "/b.png"]` at offset 0, `prev_offset`
wraps to offset `len - 1 = 1`. -/
theorem advance_true_modulo_witness :
    0 ≤ c4w.mem.offset ∧ c4w.mem.offset < (c4w.mem.index.length : Int) ∧
    c4w.mem.offset = 0 ∧
    prev_offset c4w = .ok (save { c4w with mem := { c4w.mem with
      offset := (c4w.mem.index.length : Int) - 1 } }) :=
  ⟨by decide, by decide, by decide,
    (advance_true_modulo c4w (by decide) (by decide)).2.2.2 (by decide)⟩

/-- C6: every navigation / deletion operation invoked on an empty index fails
with the empty-index error before touching any state (the error is raised
before any mutation or save); and after `load` bootstraps a fresh
environment, whose default index is empty, every navigation call fails the
same way. -/
theorem nav_empty_index (s : State) (r : Int) (h : s.mem.index = []) :
    get_image s = .error .emptyIndex ∧
    next_offset s = .error .emptyIndex ∧
    prev_offset s = .error .emptyIndex ∧
    random_offset r s = .error .emptyIndex ∧
    pop_offset s = .error .emptyIndex ∧
    load freshState = .ok (save freshState) ∧
    (save freshState).mem.index = [] ∧
    get_image (save freshState) = .error .emptyIndex ∧
    next_offset (save freshState) = .error .emptyIndex ∧
    prev_offset (save freshState) = .error .emptyIndex ∧
    random_offset r (save freshState) = .error .emptyIndex ∧
    pop_offset (save freshState) = .error .emptyIndex := by
  have hc := check_has_index_empty (c := s.mem) h
  have hcf := check_has_index_empty (c := (save freshState).mem) rfl
  refine ⟨?_, ?_, ?_, ?_, ?_, rfl, rfl, ?_, ?_, ?_, ?_, ?_⟩
  · unfold get_image
    rw [hc]
    rfl
  · unfold next_offset
    rw [hc]
    rfl
  · unfold prev_offset
    rw [hc]
    rfl
  · unfold random_offset
    rw [hc]
    rfl
  · unfold pop_offset
    rw [hc]
    rfl
  · unfold get_image
    rw [hcf]
    rfl
  · unfold next_offset
    rw [hcf]
    rfl
  · unfold prev_offset
    rw [hcf]
    rfl
  · unfold random_offset
    rw [hcf]
    rfl
  · unfold pop_offset
    rw [hcf]
    rfl

/-- C6 witness: the conjunction instantiated at an explicit empty-index
state. -/
theorem nav_empty_index_witness :
    get_image c6w = .error .emptyIndex ∧
    next_offset c6w = .error .emptyIndex ∧
    prev_offset c6w = .error .emptyIndex ∧
    random_offset 0 c6w = .error .emptyIndex ∧
    pop_offset c6w = .error .emptyIndex ∧
    load freshState = .ok (save freshState) ∧
    (save freshState).mem.index = [] ∧
    get_image (save freshState) = .error .emptyIndex ∧
    next_offset (save freshState) = .error .emptyIndex ∧
    prev_offset (save freshState) = .error .emptyIndex ∧
    random_offset 0 (save freshState) = .error .emptyIndex ∧
    pop_offset (save freshState) = .error .emptyIndex :=
  nav_empty_index c6w 0 rfl

/-- C7: `pop_offset` on a 1-element index always fails with the last-item
error, leaving index and offset untouched (the error is raised before any
mutation or save). -/
theorem pop_offset_last_item (s : State) (h : s.mem.index.length = 1) :
    pop_offset s = .error .lastItem := by
  have hne : s.mem.index ≠ [] := by
    intro he
    rw [he] at h
    simp at h
  unfold pop_offset
  rw [check_has_index_ok hne]
  show (if s.mem.index.length = 1 then Except.error Err.lastItem else _) = _
  rw [if_pos h]

/-- C7 witness: deleting from the single-image index `["/a.png"]` fails. -/
theorem pop_offset_last_item_witness :
    c7w.mem.index.length = 1 ∧ pop_offset c7w = .error .lastItem :=
  ⟨rfl, pop_offset_last_item c7w rfl⟩

/-- C10: `set_index` applied to the empty input succeeds (it is a total
operation raising no error), replaces the index with `[]`, resets the offset
to 0, and persists that empty state to disk. -/
theorem set_index_empty_input (s : State) :
    set_index s [] = { mem := { s.mem with index := [], offset := 0 },
                       disk := some (toDisk { s.mem with index := [], offset := 0 }) } :=
  rfl

/-- C1 counterexample: deleting at offset 0 from
`["/a.png", "/b.png", "/c.png"]` returns `"/b.png"` with offset 0 — the
element that followed the deleted one — not the new last element
(offset `len - 1 = 1`, `"/c.png"`) that wrap-around semantics would give. -/
theorem pop_offset_no_wraparound :
    (pop_offset c1x).map (fun r => (r.1, r.2.mem.index, r.2.mem.offset)) =
      .ok ("/b.png", ["/b.png", "/c.png"], 0) ∧
    (0 : Int) ≠ ((["/b.png", "/c.png"] : List String).length : Int) - 1 :=
  ⟨rfl, by decide⟩

/-- C1 amended: for an index of length N ≥ 2 and an in-bounds offset,
`pop_offset` removes the element at the offset, reduces the length to N - 1,
and sets the offset to `offset - 1` when the offset was positive — pointing
at the element that previously preceded the deleted one — but when the
offset was 0 it clamps the offset to 0 (the deleted element's successor,
not the new last element); it returns the new current path and persists the
result. -/
theorem pop_offset_spec (s : State) (h2 : 2 ≤ s.mem.index.length)
    (h0 : 0 ≤ s.mem.offset) (h1 : s.mem.offset < (s.mem.index.length : Int)) :
    ∃ img s2,
      pop_offset s = .ok (img, s2) ∧
      s2.mem.index = s.mem.index.eraseIdx s.mem.offset.toNat ∧
      s2.mem.index.length = s.mem.index.length - 1 ∧
      s2.mem.offset = (if s.mem.offset = 0 then 0 else s.mem.offset - 1) ∧
      img = s2.mem.index.getD s2.mem.offset.toNat "" ∧
      (0 < s.mem.offset → img = s.mem.index.getD (s.mem.offset - 1).toNat "") ∧
      s2.disk = some (toDisk s2.mem) := by
  have htn : s.mem.offset.toNat < s.mem.index.length := by omega
  have hlen : (s.mem.index.eraseIdx s.mem.offset.toNat).length =
      s.mem.index.length - 1 := List.length_eraseIdx_of_lt htn
  refine ⟨_, _, pop_offset_eq s h2 h0 h1, rfl, hlen, rfl, rfl, ?_, rfl⟩
  intro hpos
  show (s.mem.index.eraseIdx s.mem.offset.toNat).getD
      (if s.mem.offset = 0 then (0 : Int) else s.mem.offset - 1).toNat "" = _
  rw [if_neg (show ¬ s.mem.offset = 0 by omega)]
  have hj : (s.mem.offset - 1).toNat <
      (s.mem.index.eraseIdx s.mem.offset.toNat).length := by omega
  rw [List.getD_eq_getElem _ _ hj,
    List.getD_eq_getElem _ _ (show (s.mem.offset - 1).toNat < s.mem.index.length by omega)]
  exact List.getElem_eraseIdx_of_lt _ _ _ hj (by omega)

/-- C1 witness: the spec's own scenario — index `["/a.png", "/b.png"]`,
offset 1; deletion leaves `["/a.png"]`, offset 0, and returns `"/a.png"`. -/
theorem pop_offset_spec_witness :
    2 ≤ c1w.mem.index.length ∧ 0 ≤ c1w.mem.offset ∧
    c1w.mem.offset < (c1w.mem.index.length : Int) ∧
    (∃ img s2,
      pop_offset c1w = .ok (img, s2) ∧
      s2.mem.index = c1w.mem.index.eraseIdx c1w.mem.offset.toNat ∧
      s2.mem.index.length = c1w.mem.index.length - 1 ∧
      s2.mem.offset = (if c1w.mem.offset = 0 then 0 else c1w.mem.offset - 1) ∧
      img = s2.mem.index.getD s2.mem.offset.toNat "" ∧
      (0 < c1w.mem.offset → img = c1w.mem.index.getD (c1w.mem.offset - 1).toNat "") ∧
      s2.disk = some (toDisk s2.mem)) :=
  ⟨by decide, by decide, by decide,
    pop_offset_spec c1w (by decide) (by decide) (by decide)⟩

/-- C3 counterexample: with the out-of-range offset 5 both in memory and on
disk, `get_image` clamps the in-memory offset to 0 and returns `"/a.png"`,
but the result state's disk still records offset 5 — the clamp changed the
offset's value yet was not persisted. -/
theorem get_image_clamp_not_persisted :
    get_image c3x = .ok ("/a.png", { c3x with mem := { c3mem with offset := 0 } }) ∧
    c3mem.offset ≠ 0 ∧
    ({ c3x with mem := { c3mem with offset := 0 } } : State).disk ≠
      some (toDisk { c3mem with offset := 0 }) :=
  ⟨rfl, by decide, by decide⟩

/-- C3 amended: for a non-empty index, `get_image` clamps an out-of-range
offset to 0 and returns `index[offset]`, changing nothing else — and the
clamp is never persisted: the on-disk file of the result state is exactly
the one before the call. -/
theorem get_image_spec (s : State) (h : s.mem.index ≠ []) :
    get_image s = .ok
      (s.mem.index.getD
          (if s.mem.offset < 0 ∨ (s.mem.index.length : Int) ≤ s.mem.offset
            then (0 : Int) else s.mem.offset).toNat "",
        { s with mem := { s.mem with offset :=
          if s.mem.offset < 0 ∨ (s.mem.index.length : Int) ≤ s.mem.offset
            then 0 else s.mem.offset } }) ∧
    ((s.mem.offset < 0 ∨ (s.mem.index.length : Int) ≤ s.mem.offset) →
      (if s.mem.offset < 0 ∨ (s.mem.index.length : Int) ≤ s.mem.offset
        then (0 : Int) else s.mem.offset) = 0) ∧
    ({ s with mem := { s.mem with offset :=
        if s.mem.offset < 0 ∨ (s.mem.index.length : Int) ≤ s.mem.offset
          then 0 else s.mem.offset } } : State).disk = s.disk :=
  ⟨get_image_eq s h, fun hc => if_pos hc, rfl⟩

/-- C3 witness: instantiated at index `["/a.png", "/b.png"]` with
out-of-range offset 7. -/
theorem get_image_spec_witness :
    c3w.mem.index ≠ [] ∧
    get_image c3w = .ok
      (c3w.mem.index.getD
          (if c3w.mem.offset < 0 ∨ (c3w.mem.index.length : Int) ≤ c3w.mem.offset
            then (0 : Int) else c3w.mem.offset).toNat "",
        { c3w with mem := { c3w.mem with offset :=
          if c3w.mem.offset < 0 ∨ (c3w.mem.index.length : Int) ≤ c3w.mem.offset
            then 0 else c3w.mem.offset } }) ∧
    ({ c3w with mem := { c3w.mem with offset :=
        if c3w.mem.offset < 0 ∨ (c3w.mem.index.length : Int) ≤ c3w.mem.offset
          then 0 else c3w.mem.offset } } : State).disk = c3w.disk :=
  ⟨by decide, (get_image_spec c3w (by decide)).1, (get_image_spec c3w (by decide)).2.2⟩

/-- C5: `set_index` leaves exactly the stable first-occurrence
deduplication of its input (duplicate-free, a subsequence of the input,
same members), and `update_index` leaves exactly the deduplication of the
concatenation of the current index and the new paths, so duplicates across
old and new entries are collapsed as well. -/
theorem index_ops_dedup (s : State) (fns : List String) :
    (set_index s fns).mem.index = dedup fns ∧
    (set_index s fns).mem.index.Nodup ∧
    (set_index s fns).mem.index.Sublist fns ∧
    (∀ x, x ∈ (set_index s fns).mem.index ↔ x ∈ fns) ∧
    (update_index s fns).mem.index = dedup (s.mem.index ++ fns) ∧
    (update_index s fns).mem.index.Nodup ∧
    (update_index s fns).mem.index.Sublist (s.mem.index ++ fns) ∧
    (∀ x, x ∈ (update_index s fns).mem.index ↔ x ∈ s.mem.index ∨ x ∈ fns) := by
  have hupd : (update_index s fns).mem.index = dedup (s.mem.index ++ fns) :=
    dedup_append_dedup s.mem.index fns
  have hmemd : ∀ (l : List String) (x : String), x ∈ dedup l ↔ x ∈ l := by
    intro l x
    rw [dedup, mem_dedupAux]
    simp
  refine ⟨rfl, nodup_dedupAux _ _, sublist_dedupAux _ _, fun x => hmemd fns x,
    hupd, ?_, ?_, ?_⟩
  · rw [hupd]
    exact nodup_dedupAux _ _
  · rw [hupd]
    exact sublist_dedupAux _ _
  · intro x
    rw [hupd, hmemd]
    exact List.mem_append

/-- C9: when the config file exists but is not valid JSON, or is valid JSON
missing one of the four required fields, `load` fails with the config error,
and the whole invocation (`runMode`, for every mode) fails with that same
error before any operation runs — no partial recovery. -/
theorem load_config_error (s : State) (i : Option (List String))
    (o : Option Int) (b pt : Option (List String)) (m : Mode) (r : Int)
    (hbad : s.disk = some .invalid ∨
      (s.disk = some (.json i o b pt) ∧
        (i = none ∨ o = none ∨ b = none ∨ pt = none))) :
    load s = .error .configError ∧ runMode m r s = .error .configError := by
  have hload : load s = .error .configError := by
    rcases hbad with h | ⟨h, hf⟩
    · unfold load
      rw [h]
    · unfold load
      rw [h]
      rcases i with _ | i <;> rcases o with _ | o <;> rcases b with _ | b <;>
        rcases pt with _ | pt <;> simp_all
  refine ⟨hload, ?_⟩
  unfold runMode
  rw [hload]
  rfl

/-- C9 witness: a present-but-invalid config file makes `load` and the whole
`next` run fail with the config error. -/
theorem load_config_error_witness :
    c9w.disk = some .invalid ∧
    load c9w = .error .configError ∧
    runMode .next 0 c9w = .error .configError :=
  ⟨rfl, (load_config_error c9w none none none none .next 0 (Or.inl rfl)).1,
    (load_config_error c9w none none none none .next 0 (Or.inl rfl)).2⟩

/-- C8: `set_image` fails with the path errors and touches no state when the
filesystem reports the path missing or not a regular file; when the path is
already in the index it only moves the offset to the path's first position
(index unchanged) and saves; when it is absent (with an in-bounds offset) it
inserts the path immediately after the current offset and advances the
offset to point at the inserted entry, saving. -/
theorem set_image_spec (s : State) (fs : String → PathStat) (img : String)
    (h0 : 0 ≤ s.mem.offset) (h1 : s.mem.offset < (s.mem.index.length : Int)) :
    (fs img = .missing → set_image fs img s = .error .pathNotExist) ∧
    (fs img = .other → set_image fs img s = .error .pathNotFile) ∧
    (fs img = .file → img ∈ s.mem.index →
      set_image fs img s = .ok (save { s with mem := { s.mem with
        offset := (s.mem.index.findIdx (· == img) : Int) } }) ∧
      s.mem.index.findIdx (· == img) < s.mem.index.length) ∧
    (fs img = .file → img ∉ s.mem.index →
      set_image fs img s = .ok (save { s with mem := { s.mem with
        index := s.mem.index.insertIdx (s.mem.offset + 1).toNat img,
        offset := s.mem.offset + 1 } })) := by
  refine ⟨?_, ?_, ?_, ?_⟩
  · intro hm
    unfold set_image
    rw [if_pos hm]
  · intro ho
    unfold set_image
    rw [if_neg (by simp [ho]), if_pos (by simp [ho])]
  · intro hf hmem
    refine ⟨?_, List.findIdx_lt_length_of_exists ⟨img, hmem, by simp⟩⟩
    unfold set_image
    rw [if_neg (by simp [hf]), if_neg (by simp [hf]), if_pos hmem]
  · intro hf hnmem
    unfold set_image
    rw [if_neg (by simp [hf]), if_neg (by simp [hf]), if_neg hnmem]
    have hins : pyListInsert s.mem.index (s.mem.offset + 1) img =
        s.mem.index.insertIdx (s.mem.offset + 1).toNat img := by
      simp only [pyListInsert]
      split_ifs with ha hb hb
      · omega
      · omega
      · have heq : ((s.mem.index.length : Int)).toNat = (s.mem.offset + 1).toNat := by
          omega
        rw [heq]
      · rfl
    rw [hins]
    have hlen2 : (s.mem.index.insertIdx (s.mem.offset + 1).toNat img).length =
        s.mem.index.length + 1 :=
      List.length_insertIdx _ _ (by omega)
    have hne2 : s.mem.index.insertIdx (s.mem.offset + 1).toNat img ≠ [] :=
      List.ne_nil_of_length_pos (by omega)
    rw [next_offset_eq _ hne2]
    rw [if_neg (show ¬ (s.mem.offset + 1 < 0 ∨
        ((s.mem.index.insertIdx (s.mem.offset + 1).toNat img).length : Int) ≤
          s.mem.offset + 1) by
      rw [hlen2]
      push_cast
      omega)]

/-- C8 witness: the spec's scenario — `"/new.png"` absent, offset 0 on
`["/a.png", "/b.png"]` gives index `["/a.png", "/new.png", "/b.png"]` and
offset 1. -/
theorem set_image_spec_witness :
    allFiles "/new.png" = PathStat.file ∧
    "/new.png" ∉ c8w.mem.index ∧
    0 ≤ c8w.mem.offset ∧ c8w.mem.offset < (c8w.mem.index.length : Int) ∧
    set_image allFiles "/new.png" c8w = .ok (save { c8w with mem := { c8w.mem with
      index := ["/a.png", "/new.png", "/b.png"], offset := 1 } }) := by
  refine ⟨rfl, by decide, by decide, by decide, ?_⟩
  have h := (set_image_spec c8w allFiles "/new.png" (by decide) (by decide)).2.2.2
    rfl (by decide)
  exact h.trans (by rfl)

/-- C2 counterexample: loading a config whose stored offset 10 exceeds its
two-element index returns offset 10 unnormalized, and a `prev` invocation
then completes (and persists) with offset 9, outside `[0, len)`. -/
theorem offset_invariant_violated :
    (load c2x).map (fun s => s.mem.offset) = .ok 10 ∧
    (runMode .prev 0 c2x).map (fun s => (s.mem.index.length, s.mem.offset)) =
      .ok (2, 9) ∧
    ¬ ((9 : Int) < 2) :=
  ⟨rfl, rfl, by decide⟩

/-- C2 amended: the offset bound `[0, len)` is preserved by every operation
when it holds beforehand (for `update_index` given the duplicate-free index
invariant; for `random_offset` given an in-range generator value; for
`set_index` whenever the resulting index is non-empty, the bound being
meaningless on an empty index), and `get_image` and `next_offset`
re-establish it from any offset whatsoever; it is not re-established at
load time, and `prev_offset` clamps only negative offsets. -/
theorem offset_invariant_preserved (s t : State) (r : Int)
    (fs : String → PathStat) (img : String) (fns : List String)
    (hnd : s.mem.index.Nodup)
    (h0 : 0 ≤ s.mem.offset) (h1 : s.mem.offset < (s.mem.index.length : Int))
    (ht : t.mem.index ≠ [])
    (hr0 : 0 ≤ r) (hr1 : r < (s.mem.index.length : Int)) :
    exceptOffsetOK2 (get_image t) ∧
    exceptOffsetOK (next_offset t) ∧
    exceptOffsetOK (prev_offset s) ∧
    exceptOffsetOK (random_offset r s) ∧
    exceptOffsetOK2 (pop_offset s) ∧
    ((set_index s fns).mem.index ≠ [] → offsetOK (set_index s fns)) ∧
    offsetOK (update_index s fns) ∧
    exceptOffsetOK (set_image fs img s) := by
  have hlt : 0 < t.mem.index.length := List.length_pos.mpr ht
  have hne : s.mem.index ≠ [] := List.ne_nil_of_length_pos (by omega)
  refine ⟨?_, next_offset_bounded t ht, ?_, ?_, ?_, ?_, ?_, ?_⟩
  · rw [get_image_eq t ht]
    apply exceptOffsetOK2_ok
    constructor
    · show (0 : Int) ≤ if t.mem.offset < 0 ∨ (t.mem.index.length : Int) ≤ t.mem.offset
        then 0 else t.mem.offset
      split_ifs <;> omega
    · show (if t.mem.offset < 0 ∨ (t.mem.index.length : Int) ≤ t.mem.offset
        then (0 : Int) else t.mem.offset) < (t.mem.index.length : Int)
      split_ifs <;> omega
  · rw [prev_offset_eq s hne]
    apply exceptOffsetOK_ok
    constructor
    · show (0 : Int) ≤ if s.mem.offset - 1 < 0 then (s.mem.index.length : Int) - 1
        else s.mem.offset - 1
      split_ifs <;> omega
    · show (if s.mem.offset - 1 < 0 then (s.mem.index.length : Int) - 1
        else s.mem.offset - 1) < (s.mem.index.length : Int)
      split_ifs <;> omega
  · rw [random_offset_eq s r hne]
    apply exceptOffsetOK_ok
    exact ⟨hr0, hr1⟩
  · by_cases hlen1 : s.mem.index.length = 1
    · rw [pop_offset_one s hlen1]
      exact exceptOffsetOK2_error
    · rw [pop_offset_eq s (by omega) h0 h1]
      apply exceptOffsetOK2_ok
      constructor
      · show (0 : Int) ≤ if s.mem.offset = 0 then 0 else s.mem.offset - 1
        split_ifs <;> omega
      · show (if s.mem.offset = 0 then (0 : Int) else s.mem.offset - 1) <
          ((s.mem.index.eraseIdx s.mem.offset.toNat).length : Int)
        rw [List.length_eraseIdx_of_lt (by omega)]
        split_ifs <;> omega
  · intro hset
    have hfns : dedup fns ≠ [] := hset
    constructor
    · exact le_refl 0
    · show (0 : Int) < ((dedup fns).length : Int)
      have := List.length_pos.mpr hfns
      omega
  · constructor
    · exact h0
    · show s.mem.offset < ((dedup (s.mem.index ++ dedup fns)).length : Int)
      have h3 : dedup (s.mem.index ++ dedup fns) =
          dedup s.mem.index ++ dedupAux (s.mem.index ++ []) (dedup fns) :=
        dedupAux_append [] s.mem.index (dedup fns)
      rw [h3, dedup_eq_self_of_nodup hnd, List.length_append]
      push_cast
      omega
  · by_cases hm : fs img = .missing
    · unfold set_image
      rw [if_pos hm]
      exact exceptOffsetOK_error
    · by_cases hf : fs img = .file
      · by_cases hmem : img ∈ s.mem.index
        · unfold set_image
          rw [if_neg hm, if_neg (by simp [hf]), if_pos hmem]
          apply exceptOffsetOK_ok
          have hfi : s.mem.index.findIdx (· == img) < s.mem.index.length :=
            List.findIdx_lt_length_of_exists ⟨img, hmem, by simp⟩
          constructor
          · show (0 : Int) ≤ (s.mem.index.findIdx (· == img) : Int)
            omega
          · show ((s.mem.index.findIdx (· == img) : Int)) <
              (s.mem.index.length : Int)
            omega
        · unfold set_image
          rw [if_neg hm, if_neg (by simp [hf]), if_neg hmem]
          apply next_offset_bounded
          apply List.ne_nil_of_length_pos
          rw [length_pyListInsert]
          omega
      · unfold set_image
        rw [if_neg hm, if_pos hf]
        exact exceptOffsetOK_error

/-- C2 witness: the amended invariant instantiated at index
`["/a.png", "/b.png"]` with offset 1, generator value 0, an all-files
filesystem, image `"/c.png"`, and input `["/x.png"]`. -/
theorem offset_invariant_preserved_witness :
    exceptOffsetOK2 (get_image c2w) ∧
    exceptOffsetOK (next_offset c2w) ∧
    exceptOffsetOK (prev_offset c2w) ∧
    exceptOffsetOK (random_offset 0 c2w) ∧
    exceptOffsetOK2 (pop_offset c2w) ∧
    offsetOK (set_index c2w ["/x.png"]) ∧
    offsetOK (update_index c2w ["/x.png"]) ∧
    exceptOffsetOK (set_image allFiles "/c.png" c2w) := by
  have h := offset_invariant_preserved c2w c2w 0 allFiles "/c.png" ["/x.png"]
    (by decide) (by decide) (by decide) (by decide) (by decide) (by decide)
  exact ⟨h.1, h.2.1, h.2.2.1, h.2.2.2.1, h.2.2.2.2.1,
    h.2.2.2.2.2.1 (by decide), h.2.2.2.2.2.2.1, h.2.2.2.2.2.2.2⟩

end Nextbg
